import Mathlib

/-!
# Verification of the youtube-transcript CLI core (src/get_transcript.ts)

Shallow embedding of the pure core of the transcript tool: time parsing,
timestamp formatting, range parsing, HTML unescaping, timed-text payload
parsing, playability classification, and the window filter.  JavaScript
numbers are modelled as rationals (the values arising here are exact
decimals, so no floating-point behaviour is load-bearing); the JS value
Infinity used as a default upper bound is modelled by an absent Option.
Error messages thrown by the code are modelled by the error taxonomy of
the design document, one constructor per throw site.
-/

/-- Error taxonomy.  Each constructor corresponds to one family of
`throw new Error(...)` sites in the source. -/
inductive Err where
  | invalidTimeFormat
  | invalidRangeFormat
  | invalidRangeOrder
  | conflictingSelection
  | timestampsRequired
  | requestBlocked
  | ageRestricted
  | videoUnavailable
  | videoUnplayable (reason : String)
  | captionsDisabled
deriving DecidableEq, Repr

/-- `Math.round` of JavaScript: round half toward positive infinity. -/
def jsRound (q : ℚ) : ℤ := ⌊q + 1/2⌋

/-- Truncation toward zero, as used by the JS `%` operator. -/
def ratTrunc (q : ℚ) : ℤ := if 0 ≤ q then ⌊q⌋ else ⌈q⌉

/-- The JS remainder operator `a % b` on finite numbers. -/
def jsRem (a b : ℚ) : ℚ := a - b * (ratTrunc (a / b) : ℚ)

/-- One transcript snippet (interface TranscriptSnippet). -/
structure TranscriptSnippet where
  text : String
  start : ℚ
  duration : ℚ
deriving DecidableEq, Repr

/-- The parsed command line options (interface ParseResult).  The TS
fields `from`/`to` are keywords in Lean and are named `fromTime`/`toTime`
here.  An absent optional field is `none`. -/
structure ParseResult where
  video : Option String
  timestamps : Bool
  fromTime : Option ℚ
  toTime : Option ℚ
  only : Option (List ℚ)
  exclude : Option (List (ℚ × ℚ))
deriving DecidableEq, Repr

/-- `fromSec > toSec` where an absent `toSec` is `Infinity` (never exceeded). -/
def qGtUpper (x : ℚ) : Option ℚ → Bool
  | none => false
  | some t => decide (t < x)

/-- `x <= toSec` where an absent `toSec` is `Infinity` (always satisfied). -/
def qLeUpper (x : ℚ) : Option ℚ → Bool
  | none => true
  | some t => decide (x ≤ t)

/-- The body of the exclude-pass loop: snippet start lies inside the
closed interval `r`. -/
def inExcludeRange (start : ℚ) (r : ℚ × ℚ) : Bool :=
  decide (r.1 ≤ start) && decide (start ≤ r.2)

/-- The first part of `filterSnippets` (lines 278-291 of the source): the
assignment to `filtered` — only-selection, else range selection (throwing
when from > to), else a passthrough copy. -/
def selectStage (snippets : List TranscriptSnippet) (opts : ParseResult) :
    Except Err (List TranscriptSnippet) :=
  let onlyList := opts.only.getD []
  let hasOnly := opts.only.isSome && decide (onlyList.length > 0)
  let hasRange := opts.fromTime.isSome || opts.toTime.isSome
  if hasOnly then
    .ok (snippets.filter (fun s => onlyList.contains ((jsRound s.start : ℚ))))
  else if hasRange then
    let fromSec := opts.fromTime.getD 0
    if qGtUpper fromSec opts.toTime then .error .invalidRangeOrder
    else .ok (snippets.filter
      (fun s => decide (fromSec ≤ s.start) && qLeUpper s.start opts.toTime))
  else .ok snippets

/-- `filterSnippets` (lines 277-301 of the source): the selection stage
above, then the exclude pass (lines 292-299) when a non-empty exclude
list is present. -/
def filterSnippets (snippets : List TranscriptSnippet) (opts : ParseResult) :
    Except Err (List TranscriptSnippet) :=
  match selectStage snippets opts with
  | .error e => .error e
  | .ok filtered =>
    let excl := opts.exclude.getD []
    if opts.exclude.isSome && decide (excl.length > 0) then
      .ok (filtered.filter (fun s => !(excl.any (inExcludeRange s.start))))
    else .ok filtered

/-- The selection handling of `main` (lines 317-330): reject a non-empty
only set combined with from/to, then run `filterSnippets` when any
selection option is present.  The preceding `--timestamps` requirement
(line 313) is argument plumbing outside the SelectionRequest and is
assumed already validated, as the design document places it in the
argument-source collaborator. -/
def processSelection (snippets : List TranscriptSnippet) (opts : ParseResult) :
    Except Err (List TranscriptSnippet) :=
  let hasOnly := opts.only.isSome && decide ((opts.only.getD []).length > 0)
  let hasExclude := opts.exclude.isSome && decide ((opts.exclude.getD []).length > 0)
  let hasRangeOpt := opts.fromTime.isSome || opts.toTime.isSome || hasOnly || hasExclude
  if (opts.fromTime.isSome || opts.toTime.isSome) && hasOnly then
    .error .conflictingSelection
  else if hasRangeOpt then filterSnippets snippets opts
  else .ok snippets


/-! ### JS numbers and strings: parseInt, ToString, trim, split -/

/-- Whitespace as skipped by JS trim and parseInt (the model uses the
ASCII whitespace of Char.isWhitespace; the exotic Unicode space code
points accepted by JS never arise in this program). -/
def isJsWs (c : Char) : Bool := c.isWhitespace

/-- Value of a list of decimal digit characters, most significant first. -/
def digitsToNat (l : List Char) : ℕ := l.foldl (fun a c => 10 * a + (c.toNat - 48)) 0

/-- A maximal leading run of decimal digits, or none if there is none:
the core of parseInt at radix 10 after sign handling. -/
def parseDigitRun (l : List Char) : Option ℕ :=
  let ds := l.takeWhile (fun c => c.isDigit)
  if ds.isEmpty then none else some (digitsToNat ds)

/-- JS parseInt(s, 10) on a character list: skip leading whitespace, an
optional sign, then read a maximal digit run, ignoring anything after it;
none models NaN. -/
def jsParseIntL (l : List Char) : Option ℤ :=
  match l.dropWhile isJsWs with
  | [] => none
  | c :: cs =>
    if c = '-' then (parseDigitRun cs).map (fun n => -(n : ℤ))
    else if c = '+' then (parseDigitRun cs).map (fun n => (n : ℤ))
    else (parseDigitRun (c :: cs)).map (fun n => (n : ℤ))

/-- The decimal digit character for a value below ten. -/
def digitChar : ℕ → Char
  | 0 => '0' | 1 => '1' | 2 => '2' | 3 => '3' | 4 => '4'
  | 5 => '5' | 6 => '6' | 7 => '7' | 8 => '8' | _ => '9'

/-- Decimal rendering worker; the fuel argument only bounds the recursion
and any fuel of at least the digit count gives the digits of n before acc. -/
def natDecAux : ℕ → ℕ → List Char → List Char
  | 0, n, acc => digitChar n :: acc
  | fuel + 1, n, acc =>
    if n < 10 then digitChar n :: acc
    else natDecAux fuel (n / 10) (digitChar (n % 10) :: acc)

/-- One-step unfolding of natDecAux at zero fuel. -/
theorem natDecAux_zero (n : ℕ) (acc : List Char) :
    natDecAux 0 n acc = digitChar n :: acc := rfl

/-- One-step unfolding of natDecAux at positive fuel. -/
theorem natDecAux_succ (fuel n : ℕ) (acc : List Char) :
    natDecAux (fuel + 1) n acc =
      if n < 10 then digitChar n :: acc
      else natDecAux fuel (n / 10) (digitChar (n % 10) :: acc) := rfl

/-- Decimal rendering of a natural number, as JS String(n). -/
def natDecL (n : ℕ) : List Char := natDecAux n n []

/-- Decimal rendering of an integer, as JS String(i). -/
def intDecL (i : ℤ) : List Char :=
  if i < 0 then '-' :: natDecL i.natAbs else natDecL i.toNat

/-- JS String.prototype.padStart(2, "0"). -/
def padStart2 (l : List Char) : List Char := List.replicate (2 - l.length) '0' ++ l

/-- JS String.prototype.split(":") (no limit): split on every separator,
keeping empty fields. -/
def splitOnChar (sep : Char) : List Char → List (List Char)
  | [] => [[]]
  | c :: cs =>
    if c = sep then [] :: splitOnChar sep cs
    else
      match splitOnChar sep cs with
      | h :: t => (c :: h) :: t
      | [] => [[c]]

/-- JS String.prototype.trim on a character list. -/
def jsTrimL (l : List Char) : List Char :=
  ((l.dropWhile isJsWs).reverse.dropWhile isJsWs).reverse

/-! ### Time parsing and formatting -/

/-- The body of `parseTimeString` (lines 65-87): trim, split on the colon,
accept exactly two components as MM:SS (seconds 0-59, minutes any
non-negative integer) or three as HH:MM:SS (minutes and seconds 0-59),
with components read by parseInt at radix 10. -/
def parseTimeCore (l : List Char) : Except Err ℤ :=
  let trimmed := jsTrimL l
  if trimmed.isEmpty then .error .invalidTimeFormat
  else
    match splitOnChar ':' trimmed with
    | [p1, p2] =>
      match jsParseIntL p1, jsParseIntL p2 with
      | some m, some sec =>
        if m < 0 ∨ sec < 0 ∨ 59 < sec then .error .invalidTimeFormat
        else .ok (m * 60 + sec)
      | _, _ => .error .invalidTimeFormat
    | [p1, p2, p3] =>
      match jsParseIntL p1, jsParseIntL p2, jsParseIntL p3 with
      | some h, some m, some sec =>
        if h < 0 ∨ m < 0 ∨ 59 < m ∨ sec < 0 ∨ 59 < sec then .error .invalidTimeFormat
        else .ok (h * 3600 + m * 60 + sec)
      | _, _, _ => .error .invalidTimeFormat
    | _ => .error .invalidTimeFormat

/-- `parseTimeString` (lines 65-87 of the source). -/
def parseTimeString (s : String) : Except Err ℤ := parseTimeCore s.toList

/-- The body of `parseRangeString` (lines 90-101): find the first dash
anywhere (JS indexOf, -1 when absent), reject it when absent, at position
0, or at the final position, parse the two slices around it, and reject
when start exceeds end. -/
def parseRangeCore (l : List Char) : Except Err (ℤ × ℤ) :=
  let idx : ℤ := match l.findIdx? (fun c => c = '-') with
    | some i => (i : ℤ)
    | none => -1
  if idx ≤ 0 ∨ idx = (l.length : ℤ) - 1 then .error .invalidRangeFormat
  else
    match parseTimeCore (l.take idx.toNat) with
    | .error e => .error e
    | .ok tstart =>
      match parseTimeCore (l.drop (idx.toNat + 1)) with
      | .error e => .error e
      | .ok tend =>
        if tend < tstart then .error .invalidRangeOrder
        else .ok (tstart, tend)

/-- `parseRangeString` (lines 90-101 of the source). -/
def parseRangeString (s : String) : Except Err (ℤ × ℤ) := parseRangeCore s.toList

/-- Modelled from the spec (section 4.1, claim C7): the split rule as the
specification words it — split on the first dash that is neither at
position 0 nor at the final position, with InvalidRangeFormat only when
no such interior dash exists.  Used solely to exhibit where the code
deviates from this rule. -/
def parseRangeString_spec (s : String) : Except Err (ℤ × ℤ) :=
  let l := s.toList
  match (l.drop 1).findIdx? (fun c => c = '-') with
  | none => .error .invalidRangeFormat
  | some j =>
    if j + 2 = l.length then .error .invalidRangeFormat
    else
      match parseTimeCore (l.take (j + 1)) with
      | .error e => .error e
      | .ok tstart =>
        match parseTimeCore (l.drop (j + 2)) with
        | .error e => .error e
        | .ok tend =>
          if tend < tstart then .error .invalidRangeOrder
          else .ok (tstart, tend)

/-- `formatTimestamp` (lines 54-62 of the source): hours, minutes and
seconds by flooring, rendered with two-digit zero padding, the hour
field only when positive. -/
def formatTimestamp (seconds : ℚ) : String :=
  let h : ℤ := ⌊seconds / 3600⌋
  let m : ℤ := ⌊jsRem seconds 3600 / 60⌋
  let s : ℤ := ⌊jsRem seconds 60⌋
  if 0 < h then
    String.mk (padStart2 (intDecL h) ++
      (':' :: (padStart2 (intDecL m) ++ (':' :: padStart2 (intDecL s)))))
  else
    String.mk (padStart2 (intDecL m) ++ (':' :: padStart2 (intDecL s)))

/-! ### Innertube player response and caption tracks -/

/-- One run of a track display name (name?.runs?[].text). -/
structure TrackRun where
  text : Option String
deriving DecidableEq, Repr

/-- The display name object of a track. -/
structure TrackName where
  runs : Option (List TrackRun)
deriving DecidableEq, Repr

/-- One caption track (interface CaptionTrack). -/
structure CaptionTrack where
  baseUrl : String
  languageCode : String
  kind : Option String
  name : Option TrackName
deriving DecidableEq, Repr

/-- The playability status object of the player response. -/
structure PlayabilityStatus where
  status : Option String
  reason : Option String
deriving DecidableEq, Repr

/-- The caption track list container. -/
structure TracklistRenderer where
  captionTracks : Option (List CaptionTrack)
deriving DecidableEq, Repr

/-- The captions object of the player response. -/
structure Captions where
  playerCaptionsTracklistRenderer : Option TracklistRenderer
deriving DecidableEq, Repr

/-- The player response (interface InnertubePlayerResponse). -/
structure InnertubePlayerResponse where
  playabilityStatus : Option PlayabilityStatus
  captions : Option Captions
deriving DecidableEq, Repr

/-- Does the second list start with the first? -/
def startsWithL : List Char → List Char → Bool
  | [], _ => true
  | _ :: _, [] => false
  | p :: ps, c :: cs => p == c && startsWithL ps cs

/-- Does the list contain the pattern as a contiguous run? -/
def containsL (sub : List Char) : List Char → Bool
  | [] => startsWithL sub []
  | c :: cs => startsWithL sub (c :: cs) || containsL sub cs

/-- JS String.prototype.includes. -/
def jsIncludes (s sub : String) : Bool := containsL sub.toList s.toList

/-- data.playabilityStatus?.status -/
def statusOf (data : InnertubePlayerResponse) : Option String :=
  data.playabilityStatus.bind (fun p => p.status)

/-- data.playabilityStatus?.reason ?? status (line 150). -/
def reasonOf (data : InnertubePlayerResponse) (st : String) : String :=
  (data.playabilityStatus.bind (fun p => p.reason)).getD st

/-- data.captions?.playerCaptionsTracklistRenderer?.captionTracks -/
def tracksField (data : InnertubePlayerResponse) : Option (List CaptionTrack) :=
  (data.captions.bind (fun c => c.playerCaptionsTracklistRenderer)).bind
    (fun r => r.captionTracks)

/-- Lines 163-168 of the source: locate the caption-track list; missing
or empty (the JS test !tracks?.length) fails with CaptionsDisabled,
otherwise the list is returned unchanged. -/
def extractTracks (data : InnertubePlayerResponse) :
    Except Err (List CaptionTrack) :=
  match tracksField data with
  | some ts => if ts.length > 0 then .ok ts else .error .captionsDisabled
  | none => .error .captionsDisabled

/-- `getCaptionTracks` (lines 147-169 of the source).  The JS guard
`status && status !== "OK"` is truthiness first: an absent or empty
status string proceeds to the track extraction, as does "OK". -/
def getCaptionTracks (data : InnertubePlayerResponse) (videoId : String) :
    Except Err (List CaptionTrack) :=
  match statusOf data with
  | some st =>
    if st ≠ "" ∧ st ≠ "OK" then
      let reason := reasonOf data st
      if st = "LOGIN_REQUIRED" ∧ jsIncludes reason ("bot") = true then
        .error .requestBlocked
      else if jsIncludes reason ("inappropriate") = true then
        .error .ageRestricted
      else if jsIncludes reason ("unavailable") = true then
        .error .videoUnavailable
      else .error (.videoUnplayable reason)
    else extractTracks data
  | none => extractTracks data

/-! ### HTML unescaping, tag stripping, float parsing, timed-text parsing -/

/-- The apostrophe character, built by code point to keep source quoting
simple. -/
def aposC : Char := Char.ofNat 39

/-- Case-sensitive literal matcher: consume the pattern from the front of
the input, returning the remainder. -/
def matchLit : List Char → List Char → Option (List Char)
  | [], l => some l
  | _ :: _, [] => none
  | p :: ps, c :: cs => if p = c then matchLit ps cs else none

/-- JS String.prototype.replace with a global literal pattern: replace
every non-overlapping occurrence left to right.  The fuel argument is the
input length; each step consumes at least one character. -/
def replaceAllAux (pat repl : List Char) : ℕ → List Char → List Char
  | _, [] => []
  | 0, l => l
  | fuel + 1, c :: cs =>
    match matchLit pat (c :: cs) with
    | some rest => repl ++ replaceAllAux pat repl fuel rest
    | none => c :: replaceAllAux pat repl fuel cs

/-- replace(/pat/g, repl) for a literal pattern. -/
def replaceAll (pat repl l : List Char) : List Char :=
  replaceAllAux pat repl l.length l

/-- String.fromCharCode: the argument is reduced to a 16-bit code unit.
Lone surrogates (not representable as a scalar) collapse to NUL; they do
not occur in transcripts. -/
def fromCharCode (n : ℕ) : Char := Char.ofNat (n % 65536)

/-- The numeric-entity pass replace(/&#(\d+);/g, ...): a maximal digit
run after the ampersand-hash, closed by a semicolon. -/
def decEntitiesAux : ℕ → List Char → List Char
  | _, [] => []
  | 0, l => l
  | fuel + 1, c :: cs =>
    if c = '&' then
      match cs with
      | '#' :: rest =>
        match rest.takeWhile (fun c => c.isDigit), rest.dropWhile (fun c => c.isDigit) with
        | [], _ => c :: decEntitiesAux fuel cs
        | ds, ';' :: tail => fromCharCode (digitsToNat ds) :: decEntitiesAux fuel tail
        | _, _ => c :: decEntitiesAux fuel cs
      | _ => c :: decEntitiesAux fuel cs
    else c :: decEntitiesAux fuel cs

/-- The numeric-entity pass over a whole list. -/
def decEntities (l : List Char) : List Char := decEntitiesAux l.length l

/-- Hexadecimal digit test for the hex-entity pass. -/
def isHexDigitC (c : Char) : Bool :=
  c.isDigit || ('a' ≤ c && c ≤ 'f') || ('A' ≤ c && c ≤ 'F')

/-- Value of one hexadecimal digit. -/
def hexVal (c : Char) : ℕ :=
  if c.isDigit then c.toNat - 48
  else if 'a' ≤ c then c.toNat - 87
  else c.toNat - 55

/-- Value of a list of hexadecimal digits, most significant first. -/
def hexToNat (l : List Char) : ℕ := l.foldl (fun a c => 16 * a + hexVal c) 0

/-- The hex-entity pass replace(/&#x([0-9a-fA-F]+);/g, ...). -/
def hexEntitiesAux : ℕ → List Char → List Char
  | _, [] => []
  | 0, l => l
  | fuel + 1, c :: cs =>
    if c = '&' then
      match cs with
      | '#' :: 'x' :: rest =>
        match rest.takeWhile isHexDigitC, rest.dropWhile isHexDigitC with
        | [], _ => c :: hexEntitiesAux fuel cs
        | ds, ';' :: tail => fromCharCode (hexToNat ds) :: hexEntitiesAux fuel tail
        | _, _ => c :: hexEntitiesAux fuel cs
      | _ => c :: hexEntitiesAux fuel cs
    else c :: hexEntitiesAux fuel cs

/-- The hex-entity pass over a whole list. -/
def hexEntities (l : List Char) : List Char := hexEntitiesAux l.length l

/-- `unescapeHtml` (lines 103-115 of the source): ten global replaces in
source order — the sequential order is observable, since the output of
the ampersand replace is rescanned by the later ones. -/
def unescapeHtml (l : List Char) : List Char :=
  hexEntities (decEntities
    (replaceAll ("&#x2F;".toList) ("/".toList)
      (replaceAll ("&#x27;".toList) [aposC]
        (replaceAll ("&apos;".toList) [aposC]
          (replaceAll ("&#39;".toList) [aposC]
            (replaceAll ("&quot;".toList) ("\"".toList)
              (replaceAll ("&gt;".toList) (">".toList)
                (replaceAll ("&lt;".toList) ("<".toList)
                  (replaceAll ("&amp;".toList) ("&".toList) l)))))))))

/-- The tag-stripping replace(/<[^>]*>/g, "") of line 189: drop a maximal
run of non-closing-bracket characters between angle brackets. -/
def stripTagsAux : ℕ → List Char → List Char
  | _, [] => []
  | 0, l => l
  | fuel + 1, c :: cs =>
    if c = '<' then
      match cs.dropWhile (fun c => c ≠ '>') with
      | '>' :: tail => stripTagsAux fuel tail
      | _ => c :: stripTagsAux fuel cs
    else c :: stripTagsAux fuel cs

/-- Tag stripping over a whole list. -/
def stripTags (l : List Char) : List Char := stripTagsAux l.length l

/-- The text normalisation of line 189:
unescapeHtml(raw).replace(/<[^>]*>/g, "").trim(). -/
def normalizeInner (l : List Char) : List Char :=
  jsTrimL (stripTags (unescapeHtml l))

/-- Exponent part of a JS float literal, after the mantissa. -/
def readExpSigned (l : List Char) : Option ℤ :=
  match l with
  | '-' :: rest => (parseDigitRun rest).map (fun n => -(n : ℤ))
  | '+' :: rest => (parseDigitRun rest).map (fun n => (n : ℤ))
  | _ => (parseDigitRun l).map (fun n => (n : ℤ))

/-- Optional e/E exponent marker; none when no valid exponent follows
(parseFloat then stops at the mantissa). -/
def readExp (l : List Char) : Option ℤ :=
  match l with
  | 'e' :: rest => readExpSigned rest
  | 'E' :: rest => readExpSigned rest
  | _ => none

/-- Scale a value by a signed power of ten. -/
def expApply (q : ℚ) (e : ℤ) : ℚ :=
  if 0 ≤ e then q * (10 : ℚ) ^ e.toNat else q / (10 : ℚ) ^ (-e).toNat

/-- Magnitude of a JS float literal: digits, optional fraction, optional
exponent; none when no digits at all (NaN). -/
def jsParseFloatMag (l : List Char) : Option ℚ :=
  let ip := l.takeWhile (fun c => c.isDigit)
  let r1 := l.dropWhile (fun c => c.isDigit)
  match r1 with
  | '.' :: r2 =>
    let fp := r2.takeWhile (fun c => c.isDigit)
    if ip.isEmpty && fp.isEmpty then none
    else
      let base : ℚ := (digitsToNat ip : ℚ) + (digitsToNat fp : ℚ) / (10 : ℚ) ^ fp.length
      some (match readExp (r2.dropWhile (fun c => c.isDigit)) with
        | some e => expApply base e
        | none => base)
  | _ =>
    if ip.isEmpty then none
    else
      let base : ℚ := (digitsToNat ip : ℚ)
      some (match readExp r1 with
        | some e => expApply base e
        | none => base)

/-- JS parseFloat on a character list: skip leading whitespace, optional
sign, then the longest valid decimal prefix; none models NaN.  (The
literal words Infinity and NaN accepted by JS have no rational value and
never occur in timed-text attributes.) -/
def jsParseFloatL (l : List Char) : Option ℚ :=
  match l.dropWhile isJsWs with
  | '-' :: rest => (jsParseFloatMag rest).map (fun q => -q)
  | '+' :: rest => jsParseFloatMag rest
  | l1 => jsParseFloatMag l1

/-- The three captures of one match of the timed-text element pattern
(line 183). -/
structure RawCap where
  startAttr : List Char
  durAttr : List Char
  inner : List Char
deriving DecidableEq, Repr

/-- Case-insensitive literal matcher, for the /i regex flag. -/
def matchCI : List Char → List Char → Option (List Char)
  | [], l => some l
  | _ :: _, [] => none
  | p :: ps, c :: cs => if p.toLower = c.toLower then matchCI ps cs else none

/-- One anchored attempt of the element pattern
<text start="([^"]+)" dur="([^"]*)"[^>]*>([^<]*)</text> at the head of
the input.  Each bracketed class is a maximal run, which is faithful: a
shorter run would put a class character where the following literal must
match, so the regex admits no other match here. -/
def tryMatchAt (l : List Char) : Option (RawCap × List Char) :=
  match matchCI ("<text start=\"".toList) l with
  | none => none
  | some r1 =>
    let sAttr := r1.takeWhile (fun c => c ≠ '"')
    if sAttr.isEmpty then none
    else
      match matchCI ("\" dur=\"".toList) (r1.dropWhile (fun c => c ≠ '"')) with
      | none => none
      | some r2 =>
        let dAttr := r2.takeWhile (fun c => c ≠ '"')
        match matchCI (['"']) (r2.dropWhile (fun c => c ≠ '"')) with
        | none => none
        | some r3 =>
          match matchCI (['>']) (r3.dropWhile (fun c => c ≠ '>')) with
          | none => none
          | some r4 =>
            let inner := r4.takeWhile (fun c => c ≠ '<')
            match matchCI ("</text>".toList) (r4.dropWhile (fun c => c ≠ '<')) with
            | none => none
            | some r5 => some (⟨sAttr, dAttr, inner⟩, r5)

/-- The exec loop of lines 184-191: find non-overlapping matches left to
right, resuming after each match, advancing one character on failure.
The fuel is the input length; every step consumes at least one
character. -/
def scanTextsAux : ℕ → List Char → List RawCap
  | _, [] => []
  | 0, _ :: _ => []
  | fuel + 1, c :: cs =>
    match tryMatchAt (c :: cs) with
    | some (cap, rest) => cap :: scanTextsAux fuel rest
    | none => scanTextsAux fuel cs

/-- All matches of the element pattern in the payload, in order. -/
def scanTexts (l : List Char) : List RawCap := scanTextsAux l.length l

/-- One parsed snippet of the timed-text payload.  The start and
duration are Option rationals, none standing for the NaN that parseFloat
yields on malformed attribute text. -/
structure XSnippet where
  text : String
  start : Option ℚ
  duration : Option ℚ
deriving DecidableEq, Repr

/-- The loop body of lines 185-191: normalise the inner text, drop the
element when it is empty, and parse start and dur (an empty dur string
falls back to "0" through the JS || operator). -/
def capToSnippet (cap : RawCap) : Option XSnippet :=
  let text := normalizeInner cap.inner
  if text.isEmpty then none
  else some ⟨String.mk text, jsParseFloatL cap.startAttr,
    jsParseFloatL (if cap.durAttr.isEmpty then ['0'] else cap.durAttr)⟩

/-- `parseTranscriptXml` (lines 181-193 of the source). -/
def parseTranscriptXml (xml : String) : List XSnippet :=
  (scanTexts xml.toList).filterMap capToSnippet

/-- Render one timed-text element exactly in the shape the pattern
expects. -/
def renderElem (e : String × String × String) : List Char :=
  ("<text start=\"".toList) ++ e.1.toList ++ ("\" dur=\"".toList) ++
    e.2.1.toList ++ ("\">".toList) ++ e.2.2.toList ++ ("</text>".toList)

/-- Concatenate the renderings of a list of elements. -/
def flatRender (elems : List (String × String × String)) : List Char :=
  elems.foldr (fun e acc => renderElem e ++ acc) []

/-- Render a whole payload of elements, concatenated. -/
def renderTimedText (elems : List (String × String × String)) : String :=
  String.mk (flatRender elems)

/-- The snippet an element (start, dur, inner) contributes, if any. -/
def normElem (e : String × String × String) : Option XSnippet :=
  capToSnippet ⟨e.1.toList, e.2.1.toList, e.2.2.toList⟩

/-! ### Helper lemmas for the window filter -/

theorem perm_any_eq {α : Type} (p : α → Bool) {l₁ l₂ : List α} (h : l₁.Perm l₂) :
    l₁.any p = l₂.any p := by
  induction h with
  | nil => rfl
  | cons x _ ih => simp [List.any_cons, ih]
  | swap x y l => simp only [List.any_cons, ← Bool.or_assoc, Bool.or_comm]
  | trans _ _ ih₁ ih₂ => rw [ih₁, ih₂]

theorem length_filter_not {α : Type} (p q : α → Bool) (hpq : ∀ a, q a = !(p a))
    (l : List α) : (l.filter q).length = l.length - (l.filter p).length := by
  induction l with
  | nil => rfl
  | cons a l ih =>
    have hle := l.length_filter_le p
    by_cases h : p a <;> simp [List.filter_cons, h, ih, hpq] <;> omega

/-- C1: with a non-empty only set and from/to absent (and no exclude pass),
filterSnippets keeps exactly the snippets whose start, rounded half-up to
the nearest integer, belongs to the only set, in original order. -/
theorem filterSnippets_only_spec (snippets : List TranscriptSnippet)
    (opts : ParseResult) (l : List ℚ)
    (honly : opts.only = some l) (hne : l ≠ [])
    (hfrom : opts.fromTime = none) (hto : opts.toTime = none)
    (hexcl : opts.exclude = none ∨ opts.exclude = some []) :
    filterSnippets snippets opts =
      .ok (snippets.filter (fun s => l.contains ((jsRound s.start : ℚ)))) := by
  have hlen : 0 < l.length := List.length_pos.mpr hne
  rcases hexcl with h | h <;>
    simp [filterSnippets, selectStage, honly, h, hlen]

/-- C1 witness: starts 58.2, 60.0, 61.4 with only = [60] keep exactly the
snippet starting at 60.0. -/
theorem filterSnippets_only_witness :
    filterSnippets
      [⟨"a", 58.2, 1⟩, ⟨"b", 60.0, 1⟩, ⟨"c", 61.4, 1⟩]
      { video := none, timestamps := true, fromTime := none, toTime := none,
        only := some [60], exclude := none } = .ok [⟨"b", 60.0, 1⟩] := by
  have h := filterSnippets_only_spec
    [⟨"a", 58.2, 1⟩, ⟨"b", 60.0, 1⟩, ⟨"c", 61.4, 1⟩]
    { video := none, timestamps := true, fromTime := none, toTime := none,
      only := some [60], exclude := none }
    [60] rfl (List.cons_ne_nil 60 []) rfl rfl (Or.inl rfl)
  rw [h]
  with_unfolding_all rfl

/-- C2: with only absent or empty, at least one of from/to present, no
exclude ranges, and (from or 0) never exceeding the given to, the result
is exactly the snippets whose unrounded start lies in the inclusive range
from the effective lower bound to the effective upper bound. -/
theorem filterSnippets_range_spec (snippets : List TranscriptSnippet)
    (opts : ParseResult)
    (honly : opts.only = none ∨ opts.only = some [])
    (hsome : opts.fromTime.isSome ∨ opts.toTime.isSome)
    (hord : ∀ t, opts.toTime = some t → opts.fromTime.getD 0 ≤ t)
    (hexcl : opts.exclude = none ∨ opts.exclude = some []) :
    filterSnippets snippets opts =
      .ok (snippets.filter (fun s =>
        decide (opts.fromTime.getD 0 ≤ s.start) && qLeUpper s.start opts.toTime)) := by
  have hgt : qGtUpper (opts.fromTime.getD 0) opts.toTime = false := by
    cases hT : opts.toTime with
    | none => rfl
    | some t => simpa [qGtUpper] using hord t hT
  have hO : (opts.only.isSome && decide ((opts.only.getD []).length > 0)) = false := by
    rcases honly with h | h <;> simp [h]
  have hR : (opts.fromTime.isSome || opts.toTime.isSome) = true := by
    rcases hsome with h | h <;> simp [h]
  rcases hexcl with h | h <;>
    simp [filterSnippets, selectStage, hO, hR, hgt, h]

/-- C2 witness: starts 58.2, 60.0, 61.4 with from = 60, to = 61 keep
exactly the snippet starting at 60.0 (61.4 exceeds 61). -/
theorem filterSnippets_range_witness :
    filterSnippets
      [⟨"a", 58.2, 1⟩, ⟨"b", 60.0, 1⟩, ⟨"c", 61.4, 1⟩]
      { video := none, timestamps := true, fromTime := some 60, toTime := some 61,
        only := none, exclude := none } = .ok [⟨"b", 60.0, 1⟩] := by
  have h := filterSnippets_range_spec
    [⟨"a", 58.2, 1⟩, ⟨"b", 60.0, 1⟩, ⟨"c", 61.4, 1⟩]
    { video := none, timestamps := true, fromTime := some 60, toTime := some 61,
      only := none, exclude := none }
    (Or.inl rfl) (Or.inl rfl)
    (fun t ht => by cases ht; norm_num) (Or.inl rfl)
  rw [h]
  with_unfolding_all rfl

set_option maxHeartbeats 1000000 in
/-- C3 (amended only in phrasing): the exclude pass is applied after the
only/range selection as a filter that drops exactly the snippets whose
unrounded start lies inside some exclude interval (preserving order); the
result does not depend on the order of the exclude list; and for a
request with excludes only, the result length is the input length minus
the number of snippets starting inside some exclude interval. -/
theorem filterSnippets_exclude_spec :
    (∀ (snippets : List TranscriptSnippet) (opts : ParseResult) (ex : List (ℚ × ℚ)),
      opts.exclude = some ex → ex ≠ [] →
      filterSnippets snippets opts =
        (filterSnippets snippets { opts with exclude := none }).map
          (fun f => f.filter (fun s => !(ex.any (inExcludeRange s.start)))))
  ∧ (∀ (snippets : List TranscriptSnippet) (opts : ParseResult) (ex₁ ex₂ : List (ℚ × ℚ)),
      ex₁.Perm ex₂ →
      filterSnippets snippets { opts with exclude := some ex₁ } =
        filterSnippets snippets { opts with exclude := some ex₂ })
  ∧ (∀ (v : Option String) (ts : Bool) (snippets : List TranscriptSnippet)
      (ex : List (ℚ × ℚ)),
      filterSnippets snippets ⟨v, ts, none, none, none, some ex⟩ =
        .ok (snippets.filter (fun s => !(ex.any (inExcludeRange s.start))))
      ∧ (snippets.filter (fun s => !(ex.any (inExcludeRange s.start)))).length =
          snippets.length -
            (snippets.filter (fun s => ex.any (inExcludeRange s.start))).length) := by
  refine ⟨?_, ?_, ?_⟩
  · intro snippets opts ex hex hne
    have hsel : selectStage snippets { opts with exclude := none } =
        selectStage snippets opts := rfl
    have hlen : 0 < ex.length := List.length_pos.mpr hne
    unfold filterSnippets
    rw [hsel]
    cases selectStage snippets opts with
    | error e => rfl
    | ok filtered => simp [hex, hlen, Except.map]
  · intro snippets opts ex₁ ex₂ hperm
    have hsel : selectStage snippets { opts with exclude := some ex₁ } =
        selectStage snippets { opts with exclude := some ex₂ } := rfl
    have hany : ∀ s : TranscriptSnippet,
        ex₁.any (inExcludeRange s.start) = ex₂.any (inExcludeRange s.start) :=
      fun s => perm_any_eq _ hperm
    unfold filterSnippets
    rw [hsel]
    cases selectStage snippets { opts with exclude := some ex₂ } with
    | error e => rfl
    | ok filtered =>
      have hlen : ex₁.length = ex₂.length := hperm.length_eq
      simp only [Option.getD_some, Option.isSome_some, Bool.true_and, hlen, hany]
  · intro v ts snippets ex
    refine ⟨?_, length_filter_not _ _ (fun a => rfl) snippets⟩
    have hsel : selectStage snippets ⟨v, ts, none, none, none, some ex⟩ = .ok snippets := rfl
    unfold filterSnippets
    rw [hsel]
    by_cases h : ex = []
    · subst h
      simp
    · have hlen : 0 < ex.length := List.length_pos.mpr h
      simp [hlen]

/-- C3 witness: exclude [58,59] drops the snippet starting at 58.2; the
exclude pass equals a post-filter over the unexcluded run; swapping two
exclude ranges leaves the result unchanged. -/
theorem filterSnippets_exclude_witness :
    filterSnippets
      [⟨"a", 58.2, 1⟩, ⟨"b", 60.0, 1⟩, ⟨"c", 61.4, 1⟩]
      { video := none, timestamps := true, fromTime := none, toTime := none,
        only := none, exclude := some [(58, 59)] } =
      .ok [⟨"b", 60.0, 1⟩, ⟨"c", 61.4, 1⟩]
    ∧ filterSnippets
      [⟨"a", 58.2, 1⟩]
      { video := none, timestamps := true, fromTime := none, toTime := none,
        only := none, exclude := some [(58, 59)] } =
      (filterSnippets
        [⟨"a", 58.2, 1⟩]
        { video := none, timestamps := true, fromTime := none, toTime := none,
          only := none, exclude := none }).map
        (fun f => f.filter (fun s => !([((58 : ℚ), (59 : ℚ))].any (inExcludeRange s.start))))
    ∧ filterSnippets
      [⟨"a", 58.2, 1⟩]
      { video := none, timestamps := true, fromTime := none, toTime := none,
        only := none, exclude := some [(58, 59), (60, 61)] } =
      filterSnippets
      [⟨"a", 58.2, 1⟩]
      { video := none, timestamps := true, fromTime := none, toTime := none,
        only := none, exclude := some [(60, 61), (58, 59)] } := by
  refine ⟨?_, ?_, ?_⟩
  · have h := (filterSnippets_exclude_spec.2.2 none true
      [⟨"a", 58.2, 1⟩, ⟨"b", 60.0, 1⟩, ⟨"c", 61.4, 1⟩] [(58, 59)]).1
    rw [h]
    with_unfolding_all rfl
  · exact filterSnippets_exclude_spec.1 [⟨"a", 58.2, 1⟩]
      { video := none, timestamps := true, fromTime := none, toTime := none,
        only := none, exclude := some [(58, 59)] }
      [(58, 59)] rfl (List.cons_ne_nil (58, 59) [])
  · exact filterSnippets_exclude_spec.2.1 [⟨"a", 58.2, 1⟩]
      { video := none, timestamps := true, fromTime := none, toTime := none,
        only := none, exclude := none }
      [(58, 59), (60, 61)] [(60, 61), (58, 59)] (List.Perm.swap (60, 61) (58, 59) [])

/-- C8 (amended): when only is absent or empty, from > to is rejected with
InvalidRangeOrder; a non-empty only set combined with from or to is
rejected with ConflictingSelection (which takes precedence when both
conditions hold); in neither case is filtered output produced. -/
theorem processSelection_validation :
    (∀ (snippets : List TranscriptSnippet) (opts : ParseResult) (f t : ℚ),
      opts.fromTime = some f → opts.toTime = some t → t < f →
      (opts.only = none ∨ opts.only = some []) →
      processSelection snippets opts = .error .invalidRangeOrder)
  ∧ (∀ (snippets : List TranscriptSnippet) (opts : ParseResult) (l : List ℚ),
      opts.only = some l → l ≠ [] →
      (opts.fromTime.isSome ∨ opts.toTime.isSome) →
      processSelection snippets opts = .error .conflictingSelection) := by
  constructor
  · intro snippets opts f t hf ht hlt honly
    have hO : (opts.only.isSome && decide ((opts.only.getD []).length > 0)) = false := by
      rcases honly with h | h <;> simp [h]
    simp [processSelection, hf, ht, hO, filterSnippets, selectStage, qGtUpper, hlt]
  · intro snippets opts l honly hne hsome
    have hlen : 0 < l.length := List.length_pos.mpr hne
    have hR : (opts.fromTime.isSome || opts.toTime.isSome) = true := by
      rcases hsome with h | h <;> simp [h]
    simp [processSelection, honly, hlen, hR]

/-- C8 witness: from = 2 > to = 1 alone gives InvalidRangeOrder; only = [5]
with from present gives ConflictingSelection. -/
theorem processSelection_validation_witness :
    processSelection []
      { video := none, timestamps := true, fromTime := some 2,
        toTime := some 1, only := none, exclude := none } = .error .invalidRangeOrder
    ∧ processSelection []
      { video := none, timestamps := true, fromTime := some 0,
        toTime := none, only := some [5], exclude := none } =
      .error .conflictingSelection := by
  constructor
  · exact processSelection_validation.1 [] _ 2 1 rfl rfl (by norm_num) (Or.inl rfl)
  · exact processSelection_validation.2 [] _ [5] rfl (List.cons_ne_nil 5 []) (Or.inl rfl)

/-- C8 counterexample: a request with both from = 2 > to = 1 and a
non-empty only set is rejected with ConflictingSelection — not with
InvalidRangeOrder as the claim, read literally, requires for every
request with from > to. -/
theorem processSelection_counterexample :
    processSelection []
      { video := none, timestamps := true, fromTime := some 2,
        toTime := some 1, only := some [5], exclude := none } =
      .error .conflictingSelection
    ∧ Err.conflictingSelection ≠ Err.invalidRangeOrder :=
  ⟨by with_unfolding_all rfl, by decide⟩

/-! ### Helper lemmas: digits, decimal rendering, parseInt -/

theorem ne_of_digit_of_not {c d : Char} (h : c.isDigit = true)
    (hd : d.isDigit = false) : c ≠ d := by
  intro he
  rw [he, hd] at h
  cases h

theorem ws_not_digit {c : Char} (h : isJsWs c = true) : c.isDigit = false := by
  have h4 : ((c = ' ' ∨ c = '\t') ∨ c = '\x0d') ∨ c = '\n' := by
    simpa [isJsWs, Char.isWhitespace, decide_eq_true_eq] using h
  rcases h4 with ((h4 | h4) | h4) | h4 <;> subst h4 <;> rfl

theorem digit_not_ws {c : Char} (h : c.isDigit = true) : isJsWs c = false := by
  cases hw : isJsWs c
  · rfl
  · rw [ws_not_digit hw] at h
    cases h

theorem digitChar_isDigit {n : ℕ} (h : n < 10) : (digitChar n).isDigit = true := by
  interval_cases n <;> rfl

theorem digitChar_toNat {n : ℕ} (h : n < 10) : (digitChar n).toNat = 48 + n := by
  interval_cases n <;> rfl

theorem natDecAux_append (fuel : ℕ) :
    ∀ n acc, natDecAux fuel n acc = natDecAux fuel n [] ++ acc := by
  induction fuel with
  | zero => intro n acc; rfl
  | succ f ih =>
    intro n acc
    by_cases h : n < 10
    · simp [natDecAux_succ, h]
    · simp only [natDecAux_succ, if_neg h]
      rw [ih (n / 10) (digitChar (n % 10) :: acc), ih (n / 10) [digitChar (n % 10)]]
      simp

theorem digitsToNat_concat (a : List Char) (d : Char) :
    digitsToNat (a ++ [d]) = 10 * digitsToNat a + (d.toNat - 48) := by
  simp [digitsToNat, List.foldl_append]

theorem natDecAux_good (fuel : ℕ) :
    ∀ n, n < 10 ^ (fuel + 1) →
      natDecAux fuel n [] ≠ [] ∧ (∀ c ∈ natDecAux fuel n [], c.isDigit = true) ∧
        digitsToNat (natDecAux fuel n []) = n := by
  induction fuel with
  | zero =>
    intro n h
    rw [pow_one] at h
    refine ⟨by simp [natDecAux_zero], ?_, ?_⟩
    · intro c hc
      simp only [natDecAux_zero, List.mem_singleton] at hc
      exact hc ▸ digitChar_isDigit h
    · simp only [natDecAux_zero, digitsToNat, List.foldl_cons, List.foldl_nil,
        digitChar_toNat h]
      omega
  | succ f ih =>
    intro n h
    by_cases h10 : n < 10
    · refine ⟨by simp [natDecAux_succ, h10], ?_, ?_⟩
      · intro c hc
        simp only [natDecAux_succ, if_pos h10, List.mem_singleton] at hc
        exact hc ▸ digitChar_isDigit h10
      · simp only [natDecAux_succ, if_pos h10, digitsToNat, List.foldl_cons,
          List.foldl_nil, digitChar_toNat h10]
        omega
    · have hdiv : n / 10 < 10 ^ (f + 1) := by
        rw [Nat.div_lt_iff_lt_mul (by norm_num)]
        calc n < 10 ^ (f + 1 + 1) := h
        _ = 10 ^ (f + 1) * 10 := by ring
      obtain ⟨hne, hdg, hval⟩ := ih (n / 10) hdiv
      have hmod : n % 10 < 10 := Nat.mod_lt n (by norm_num)
      have hstep : natDecAux (f + 1) n [] =
          natDecAux f (n / 10) [] ++ [digitChar (n % 10)] := by
        rw [natDecAux_succ, if_neg h10,
          natDecAux_append f (n / 10) [digitChar (n % 10)]]
      refine ⟨?_, ?_, ?_⟩
      · rw [hstep]
        intro habs
        exact hne (List.append_eq_nil.mp habs).1
      · intro c hc
        rw [hstep] at hc
        rcases List.mem_append.mp hc with hc | hc
        · exact hdg c hc
        · exact (List.mem_singleton.mp hc) ▸ digitChar_isDigit hmod
      · rw [hstep, digitsToNat_concat, hval, digitChar_toNat hmod]
        omega

theorem natDecL_good (n : ℕ) :
    natDecL n ≠ [] ∧ (∀ c ∈ natDecL n, c.isDigit = true) ∧
      digitsToNat (natDecL n) = n := by
  refine natDecAux_good n n ?_
  calc n < 2 ^ n := Nat.lt_two_pow n
  _ ≤ 10 ^ n := Nat.pow_le_pow_left (by norm_num) n
  _ ≤ 10 ^ (n + 1) := Nat.pow_le_pow_right (by norm_num) (Nat.le_succ n)

theorem digitsToNat_replicate_zero (k : ℕ) (l : List Char) :
    digitsToNat (List.replicate k '0' ++ l) = digitsToNat l := by
  induction k with
  | zero => rfl
  | succ j ih =>
    rw [List.replicate_succ, List.cons_append]
    simpa [digitsToNat] using ih

theorem padStart2_good {l : List Char} (hne : l ≠ [])
    (hdg : ∀ c ∈ l, c.isDigit = true) :
    padStart2 l ≠ [] ∧ (∀ c ∈ padStart2 l, c.isDigit = true) ∧
      digitsToNat (padStart2 l) = digitsToNat l := by
  refine ⟨?_, ?_, digitsToNat_replicate_zero _ l⟩
  · intro habs
    exact hne (List.append_eq_nil.mp habs).2
  · intro c hc
    rcases List.mem_append.mp hc with hc | hc
    · rw [List.eq_of_mem_replicate hc]
      rfl
    · exact hdg c hc

theorem takeWhile_append_not {p : Char → Bool} :
    ∀ (d rest : List Char), (∀ c ∈ d, p c = true) →
      (∀ c, rest.head? = some c → p c = false) →
      (d ++ rest).takeWhile p = d ∧ (d ++ rest).dropWhile p = rest := by
  intro d
  induction d with
  | nil =>
    intro rest _ hr
    cases rest with
    | nil => exact ⟨rfl, rfl⟩
    | cons r rs =>
      constructor
      · simp [List.takeWhile_cons, hr r rfl]
      · simp [List.dropWhile_cons, hr r rfl]
  | cons a d ih =>
    intro rest h hr
    have ha : p a = true := h a (List.mem_cons_self a d)
    have hrec := ih rest (fun c hc => h c (List.mem_cons_of_mem a hc)) hr
    constructor
    · simp [List.takeWhile_cons, ha, hrec.1]
    · simp [List.dropWhile_cons, ha, hrec.2]

theorem dropWhile_head_not {p : Char → Bool} (l : List Char)
    (h : ∀ c, l.head? = some c → p c = false) : l.dropWhile p = l := by
  cases l with
  | nil => rfl
  | cons a as => simp [List.dropWhile_cons, h a rfl]

theorem jsTrimL_eq_self {l : List Char}
    (h1 : ∀ c, l.head? = some c → isJsWs c = false)
    (h2 : ∀ c, l.getLast? = some c → isJsWs c = false) : jsTrimL l = l := by
  unfold jsTrimL
  rw [dropWhile_head_not l h1, dropWhile_head_not l.reverse, List.reverse_reverse]
  intro c hc
  rw [List.head?_reverse] at hc
  exact h2 c hc

theorem splitOnChar_not_mem {sep : Char} :
    ∀ {l : List Char}, sep ∉ l → splitOnChar sep l = [l] := by
  intro l
  induction l with
  | nil => intro _; rfl
  | cons c cs ih =>
    intro h
    have hc : ¬ c = sep := fun he => h (he ▸ List.mem_cons_self c cs)
    have ht := ih (fun hm => h (List.mem_cons_of_mem _ hm))
    simp [splitOnChar, hc, ht]

theorem splitOnChar_append {sep : Char} :
    ∀ (A R : List Char), sep ∉ A →
      splitOnChar sep (A ++ sep :: R) = A :: splitOnChar sep R := by
  intro A
  induction A with
  | nil => intro R _; simp [splitOnChar]
  | cons a A ih =>
    intro R h
    have ha : ¬ a = sep := fun he => h (he ▸ List.mem_cons_self a A)
    have ht := ih R (fun hm => h (List.mem_cons_of_mem _ hm))
    simp [splitOnChar, ha, ht]

theorem parseDigitRun_append (d rest : List Char) (hne : d ≠ [])
    (hd : ∀ c ∈ d, c.isDigit = true)
    (hr : ∀ c, rest.head? = some c → c.isDigit = false) :
    parseDigitRun (d ++ rest) = some (digitsToNat d) := by
  have ht := (takeWhile_append_not d rest hd hr).1
  unfold parseDigitRun
  simp only [ht, List.isEmpty_iff, if_neg hne]

theorem jsParseIntL_digits (d rest : List Char) (hne : d ≠ [])
    (hd : ∀ c ∈ d, c.isDigit = true)
    (hr : ∀ c, rest.head? = some c → c.isDigit = false) :
    jsParseIntL (d ++ rest) = some (digitsToNat d : ℤ) := by
  obtain ⟨c, cs, rfl⟩ := List.exists_cons_of_ne_nil hne
  have hc : c.isDigit = true := hd c (List.mem_cons_self c cs)
  unfold jsParseIntL
  rw [List.cons_append, List.dropWhile_cons]
  simp only [digit_not_ws hc, Bool.false_eq_true, if_false,
    if_neg (ne_of_digit_of_not hc (by rfl : ('-' : Char).isDigit = false)),
    if_neg (ne_of_digit_of_not hc (by rfl : ('+' : Char).isDigit = false))]
  rw [← List.cons_append, parseDigitRun_append (c :: cs) rest hne hd hr]
  rfl

theorem jsParseIntL_neg_digits (d rest : List Char) (hne : d ≠ [])
    (hd : ∀ c ∈ d, c.isDigit = true)
    (hr : ∀ c, rest.head? = some c → c.isDigit = false) :
    jsParseIntL ('-' :: (d ++ rest)) = some (-(digitsToNat d : ℤ)) := by
  unfold jsParseIntL
  rw [List.dropWhile_cons]
  simp only [show isJsWs '-' = false from rfl, Bool.false_eq_true, if_false, if_pos rfl]
  rw [parseDigitRun_append d rest hne hd hr]
  rfl

theorem jsParseIntL_cons_ws (c : Char) (l : List Char) (h : isJsWs c = true) :
    jsParseIntL (c :: l) = jsParseIntL l := by
  unfold jsParseIntL
  rw [List.dropWhile_cons, if_pos h]

theorem jsParseIntL_head_bad (c : Char) (l : List Char) (hws : isJsWs c = false)
    (hm : ¬ c = '-') (hp : ¬ c = '+') (hd : c.isDigit = false) :
    jsParseIntL (c :: l) = none := by
  unfold jsParseIntL
  rw [List.dropWhile_cons]
  simp only [hws, Bool.false_eq_true, if_false, if_neg hm, if_neg hp]
  unfold parseDigitRun
  simp [List.takeWhile_cons, hd]

theorem not_mem_of_digits {l : List Char} (hd : ∀ c ∈ l, c.isDigit = true)
    {d : Char} (hnd : d.isDigit = false) : d ∉ l := by
  intro hm
  rw [hd d hm] at hnd
  cases hnd

theorem jsTrimL_of_all_not_ws {l : List Char}
    (h : ∀ c ∈ l, isJsWs c = false) : jsTrimL l = l :=
  jsTrimL_eq_self
    (fun c hc => h c (List.mem_of_mem_head? (hc ▸ rfl)))
    (fun c hc => h c (List.mem_of_mem_getLast? (hc ▸ rfl)))

theorem parseTimeCore_two (p1 p2 : List Char)
    (h1 : (':' : Char) ∉ p1) (h2 : (':' : Char) ∉ p2)
    (htrim : jsTrimL (p1 ++ ':' :: p2) = p1 ++ ':' :: p2) :
    parseTimeCore (p1 ++ ':' :: p2) =
      match jsParseIntL p1, jsParseIntL p2 with
      | some m, some sec =>
        if m < 0 ∨ sec < 0 ∨ 59 < sec then .error .invalidTimeFormat
        else .ok (m * 60 + sec)
      | _, _ => .error .invalidTimeFormat := by
  have hsplit : splitOnChar ':' (p1 ++ ':' :: p2) = [p1, p2] := by
    rw [splitOnChar_append p1 p2 h1, splitOnChar_not_mem h2]
  have hne : (p1 ++ ':' :: p2).isEmpty = false := by
    cases p1 <;> rfl
  simp only [parseTimeCore, htrim, hsplit, hne, Bool.false_eq_true, if_false]

theorem parseTimeCore_three (p1 p2 p3 : List Char)
    (h1 : (':' : Char) ∉ p1) (h2 : (':' : Char) ∉ p2) (h3 : (':' : Char) ∉ p3)
    (htrim : jsTrimL (p1 ++ ':' :: (p2 ++ ':' :: p3)) = p1 ++ ':' :: (p2 ++ ':' :: p3)) :
    parseTimeCore (p1 ++ ':' :: (p2 ++ ':' :: p3)) =
      match jsParseIntL p1, jsParseIntL p2, jsParseIntL p3 with
      | some h, some m, some sec =>
        if h < 0 ∨ m < 0 ∨ 59 < m ∨ sec < 0 ∨ 59 < sec then .error .invalidTimeFormat
        else .ok (h * 3600 + m * 60 + sec)
      | _, _, _ => .error .invalidTimeFormat := by
  have hsplit : splitOnChar ':' (p1 ++ ':' :: (p2 ++ ':' :: p3)) = [p1, p2, p3] := by
    rw [splitOnChar_append p1 (p2 ++ ':' :: p3) h1,
      splitOnChar_append p2 p3 h2, splitOnChar_not_mem h3]
  have hne : (p1 ++ ':' :: (p2 ++ ':' :: p3)).isEmpty = false := by
    cases p1 <;> rfl
  simp only [parseTimeCore, htrim, hsplit, hne, Bool.false_eq_true, if_false]

theorem jsParseIntL_natDecL (n : ℕ) : jsParseIntL (natDecL n) = some (n : ℤ) := by
  obtain ⟨hne, hdg, hval⟩ := natDecL_good n
  have h := jsParseIntL_digits (natDecL n) [] hne hdg (fun c hc => nomatch hc)
  rw [List.append_nil] at h
  rw [h, hval]

theorem jsParseIntL_pad_natDecL (n : ℕ) :
    jsParseIntL (padStart2 (natDecL n)) = some (n : ℤ) := by
  obtain ⟨hne, hdg, hval⟩ := natDecL_good n
  obtain ⟨hne2, hdg2, hval2⟩ := padStart2_good hne hdg
  have h := jsParseIntL_digits (padStart2 (natDecL n)) [] hne2 hdg2
    (fun c hc => nomatch hc)
  rw [List.append_nil] at h
  rw [h, hval2, hval]

theorem not_ws_time_two {p1 p2 : List Char}
    (h1 : ∀ c ∈ p1, c.isDigit = true) (h2 : ∀ c ∈ p2, c.isDigit = true) :
    ∀ c ∈ p1 ++ ':' :: p2, isJsWs c = false := by
  intro c hc
  rcases List.mem_append.mp hc with hc | hc
  · exact digit_not_ws (h1 c hc)
  · rcases List.mem_cons.mp hc with rfl | hc
    · rfl
    · exact digit_not_ws (h2 c hc)

theorem not_ws_time_three {p1 p2 p3 : List Char}
    (h1 : ∀ c ∈ p1, c.isDigit = true) (h2 : ∀ c ∈ p2, c.isDigit = true)
    (h3 : ∀ c ∈ p3, c.isDigit = true) :
    ∀ c ∈ p1 ++ ':' :: (p2 ++ ':' :: p3), isJsWs c = false := by
  intro c hc
  rcases List.mem_append.mp hc with hc | hc
  · exact digit_not_ws (h1 c hc)
  · rcases List.mem_cons.mp hc with rfl | hc
    · rfl
    · exact not_ws_time_two h2 h3 c hc

/-- C6 (amended): parseTime trims the whole string and splits on the
colon; two components give minutes*60+seconds with seconds in 0-59 and
minutes any non-negative integer (the code does not bound minutes in the
two-component form); three components give hours*3600+minutes*60+seconds
with minutes and seconds in 0-59; out-of-range seconds, a negative
component, any other component count, and a component with no leading
integer fail with InvalidTimeFormat; components are read in the parseInt
style, so whitespace before a component and trailing non-digits after the
integer are tolerated, not rejected. -/
theorem parseTimeString_spec :
    (∀ m sec : ℕ, sec ≤ 59 →
      parseTimeString (String.mk (natDecL m ++ ':' :: natDecL sec)) =
        .ok ((m : ℤ) * 60 + sec))
  ∧ (∀ hr m sec : ℕ, m ≤ 59 → sec ≤ 59 →
      parseTimeString (String.mk (natDecL hr ++ ':' :: (natDecL m ++ ':' :: natDecL sec))) =
        .ok ((hr : ℤ) * 3600 + m * 60 + sec))
  ∧ (∀ m sec : ℕ, 60 ≤ sec →
      parseTimeString (String.mk (natDecL m ++ ':' :: natDecL sec)) =
        .error .invalidTimeFormat)
  ∧ (∀ m sec : ℕ,
      parseTimeString (String.mk ('-' :: (natDecL (m + 1) ++ ':' :: natDecL sec))) =
        .error .invalidTimeFormat)
  ∧ (∀ s : String, (splitOnChar ':' (jsTrimL s.toList)).length ≠ 2 →
      (splitOnChar ':' (jsTrimL s.toList)).length ≠ 3 →
      parseTimeString s = .error .invalidTimeFormat)
  ∧ (∀ sec : ℕ,
      parseTimeString (String.mk ('x' :: ':' :: natDecL sec)) =
        .error .invalidTimeFormat)
  ∧ (∀ m sec : ℕ, sec ≤ 59 →
      parseTimeString (String.mk (natDecL m ++ ':' :: (' ' :: (natDecL sec ++ ['x'])))) =
        .ok ((m : ℤ) * 60 + sec)) := by
  refine ⟨?_, ?_, ?_, ?_, ?_, ?_, ?_⟩
  · intro m sec hsec
    obtain ⟨hm1, hm2, hm3⟩ := natDecL_good m
    obtain ⟨hs1, hs2, hs3⟩ := natDecL_good sec
    show parseTimeCore (natDecL m ++ ':' :: natDecL sec) = _
    rw [parseTimeCore_two _ _ (not_mem_of_digits hm2 rfl) (not_mem_of_digits hs2 rfl)
      (jsTrimL_of_all_not_ws (not_ws_time_two hm2 hs2))]
    simp only [jsParseIntL_natDecL]
    rw [if_neg (by omega)]
  · intro hr m sec hm hsec
    obtain ⟨hh1, hh2, hh3⟩ := natDecL_good hr
    obtain ⟨hm1, hm2, hm3⟩ := natDecL_good m
    obtain ⟨hs1, hs2, hs3⟩ := natDecL_good sec
    show parseTimeCore (natDecL hr ++ ':' :: (natDecL m ++ ':' :: natDecL sec)) = _
    rw [parseTimeCore_three _ _ _ (not_mem_of_digits hh2 rfl)
      (not_mem_of_digits hm2 rfl) (not_mem_of_digits hs2 rfl)
      (jsTrimL_of_all_not_ws (not_ws_time_three hh2 hm2 hs2))]
    simp only [jsParseIntL_natDecL]
    rw [if_neg (by omega)]
  · intro m sec hsec
    obtain ⟨hm1, hm2, hm3⟩ := natDecL_good m
    obtain ⟨hs1, hs2, hs3⟩ := natDecL_good sec
    show parseTimeCore (natDecL m ++ ':' :: natDecL sec) = _
    rw [parseTimeCore_two _ _ (not_mem_of_digits hm2 rfl) (not_mem_of_digits hs2 rfl)
      (jsTrimL_of_all_not_ws (not_ws_time_two hm2 hs2))]
    simp only [jsParseIntL_natDecL]
    rw [if_pos (by omega)]
  · intro m sec
    obtain ⟨hm1, hm2, hm3⟩ := natDecL_good (m + 1)
    obtain ⟨hs1, hs2, hs3⟩ := natDecL_good sec
    have hmem : (':' : Char) ∉ '-' :: natDecL (m + 1) := by
      intro hmm
      rcases List.mem_cons.mp hmm with h | h
      · exact absurd h (by decide)
      · exact absurd h (not_mem_of_digits hm2 (by decide))
    have hall : ∀ c ∈ ('-' :: natDecL (m + 1)) ++ ':' :: natDecL sec,
        isJsWs c = false := by
      intro c hc
      rcases List.mem_append.mp hc with hc | hc
      · rcases List.mem_cons.mp hc with rfl | hc
        · rfl
        · exact digit_not_ws (hm2 c hc)
      · rcases List.mem_cons.mp hc with rfl | hc
        · rfl
        · exact digit_not_ws (hs2 c hc)
    show parseTimeCore ('-' :: (natDecL (m + 1) ++ ':' :: natDecL sec)) = _
    rw [show '-' :: (natDecL (m + 1) ++ ':' :: natDecL sec) =
      ('-' :: natDecL (m + 1)) ++ ':' :: natDecL sec from rfl]
    rw [parseTimeCore_two _ _ hmem (not_mem_of_digits hs2 rfl)
      (jsTrimL_of_all_not_ws hall)]
    have hneg := jsParseIntL_neg_digits (natDecL (m + 1)) [] hm1 hm2
      (fun c hc => nomatch hc)
    rw [List.append_nil] at hneg
    simp only [hneg, hm3, jsParseIntL_natDecL]
    rw [if_pos (by omega)]
  · intro s hc2 hc3
    show parseTimeCore s.toList = _
    by_cases hemp : (jsTrimL s.toList).isEmpty
    · simp only [parseTimeCore, hemp, if_true]
    · rcases hsp : splitOnChar ':' (jsTrimL s.toList) with _ | ⟨a, _ | ⟨b, _ | ⟨c, rest⟩⟩⟩
      · simp only [parseTimeCore, hemp, Bool.false_eq_true, if_false, hsp]
      · simp only [parseTimeCore, hemp, Bool.false_eq_true, if_false, hsp]
      · exact absurd (by rw [hsp] ; rfl) hc2
      · rcases rest with _ | ⟨d, rest⟩
        · exact absurd (by rw [hsp] ; rfl) hc3
        · simp only [parseTimeCore, hemp, Bool.false_eq_true, if_false, hsp]
  · intro sec
    obtain ⟨hs1, hs2, hs3⟩ := natDecL_good sec
    have hall : ∀ c ∈ ['x'] ++ ':' :: natDecL sec, isJsWs c = false := by
      intro c hc
      rcases List.mem_append.mp hc with hc | hc
      · rcases List.mem_cons.mp hc with rfl | hc
        · rfl
        · cases hc
      · rcases List.mem_cons.mp hc with rfl | hc
        · rfl
        · exact digit_not_ws (hs2 c hc)
    show parseTimeCore (['x'] ++ ':' :: natDecL sec) = _
    rw [parseTimeCore_two _ _ (by decide) (not_mem_of_digits hs2 rfl)
      (jsTrimL_of_all_not_ws hall)]
    rw [jsParseIntL_head_bad 'x' [] rfl (by decide) (by decide) rfl]
  · intro m sec hsec
    obtain ⟨hm1, hm2, hm3⟩ := natDecL_good m
    obtain ⟨hs1, hs2, hs3⟩ := natDecL_good sec
    have hmem2 : (':' : Char) ∉ ' ' :: (natDecL sec ++ ['x']) := by
      intro hmm
      rcases List.mem_cons.mp hmm with h | h
      · exact absurd h (by decide)
      · rcases List.mem_append.mp h with h | h
        · exact absurd h (not_mem_of_digits hs2 (by decide))
        · rcases List.mem_cons.mp h with h | h
          · exact absurd h (by decide)
          · cases h
    obtain ⟨cm, csm, hcm⟩ := List.exists_cons_of_ne_nil hm1
    have hhead : ∀ c, (natDecL m ++ ':' :: (' ' :: (natDecL sec ++ ['x']))).head? = some c →
        isJsWs c = false := by
      intro c hc
      rw [hcm, List.cons_append] at hc
      cases hc
      exact digit_not_ws (hm2 cm (hcm ▸ List.mem_cons_self cm csm))
    have hassoc : natDecL m ++ ':' :: (' ' :: (natDecL sec ++ ['x'])) =
        (natDecL m ++ ':' :: (' ' :: natDecL sec)) ++ ['x'] := by
      simp [List.append_assoc]
    have hlast : ∀ c, (natDecL m ++ ':' :: (' ' :: (natDecL sec ++ ['x']))).getLast? = some c →
        isJsWs c = false := by
      intro c hc
      rw [hassoc, List.getLast?_concat] at hc
      cases hc
      rfl
    show parseTimeCore (natDecL m ++ ':' :: (' ' :: (natDecL sec ++ ['x']))) = _
    rw [parseTimeCore_two _ _ (not_mem_of_digits hm2 rfl) hmem2
      (jsTrimL_eq_self hhead hlast)]
    have hx : ∀ c : Char, (['x'] : List Char).head? = some c → c.isDigit = false := by
      intro c hc
      cases hc
      rfl
    have hp2 : jsParseIntL (' ' :: (natDecL sec ++ ['x'])) = some (sec : ℤ) := by
      rw [jsParseIntL_cons_ws ' ' _ rfl,
        jsParseIntL_digits (natDecL sec) ['x'] hs1 hs2 hx, hs3]
    simp only [jsParseIntL_natDecL, hp2]
    rw [if_neg (by omega)]

/-- C6 counterexample: parseTime("90: 1x") succeeds with 5401 even though
the minutes component 90 is outside 0-59, the seconds component contains
internal whitespace, and the trailing x makes it non-numeric — three
conditions the claim says must fail with InvalidTimeFormat. -/
theorem parseTimeString_counterexample :
    parseTimeString ("90: 1x") = .ok 5401 := rfl

/-- C6 witness: success and failure cases at concrete inputs, including
the unbounded minutes of the two-component form. -/
theorem parseTimeString_spec_witness :
    parseTimeString ("90:1") = .ok 5401
    ∧ parseTimeString ("1:2:3") = .ok 3723
    ∧ parseTimeString ("1:60") = .error .invalidTimeFormat
    ∧ parseTimeString ("1:2:3:4") = .error .invalidTimeFormat := by
  refine ⟨?_, ?_, ?_, ?_⟩
  · have h := parseTimeString_spec.1 90 1 (by norm_num)
    have he : String.mk (natDecL 90 ++ ':' :: natDecL 1) = "90:1" := by decide
    rw [he] at h
    rw [h]
    norm_num
  · have h := parseTimeString_spec.2.1 1 2 3 (by norm_num) (by norm_num)
    have he : String.mk (natDecL 1 ++ ':' :: (natDecL 2 ++ ':' :: natDecL 3)) =
      "1:2:3" := by decide
    rw [he] at h
    rw [h]
    norm_num
  · have h := parseTimeString_spec.2.2.1 1 60 (by norm_num)
    have he : String.mk (natDecL 1 ++ ':' :: natDecL 60) = "1:60" := by decide
    rw [he] at h
    exact h
  · exact parseTimeString_spec.2.2.2.2.1 ("1:2:3:4") (by decide) (by decide)

theorem findIdx?_dash_append :
    ∀ (a b : List Char), '-' ∉ a →
      (a ++ '-' :: b).findIdx? (fun c => c = '-') = some a.length := by
  intro a
  induction a with
  | nil => intro b _; simp
  | cons x a ih =>
    intro b h
    have hx : ¬ x = '-' := fun he => h (he ▸ List.mem_cons_self x a)
    rw [List.cons_append, List.findIdx?_cons]
    simp only [hx, decide_False, Bool.false_eq_true, if_false, List.findIdx?_succ,
      ih b (fun hm => h (List.mem_cons_of_mem _ hm)), Option.map_some']
    simp [Nat.add_comm]

/-- C7 (amended): parseExcludeRange splits at the first dash in the whole
string, failing with InvalidRangeFormat when there is no dash or the
first dash sits at position 0 or at the final position (even when a later
interior dash exists); each side is parsed with parseTime; the result
fails with InvalidRangeOrder when start exceeds end, and any success
returns a pair with start at most end. -/
theorem parseRangeString_spec_thm :
    (∀ s : String, '-' ∉ s.toList →
      parseRangeString s = .error .invalidRangeFormat)
  ∧ (∀ t : List Char,
      parseRangeString (String.mk ('-' :: t)) = .error .invalidRangeFormat)
  ∧ (∀ a b : List Char, '-' ∉ a → a ≠ [] → b ≠ [] →
      parseRangeString (String.mk (a ++ '-' :: b)) =
        match parseTimeCore a with
        | .error e => .error e
        | .ok tstart =>
          match parseTimeCore b with
          | .error e => .error e
          | .ok tend =>
            if tend < tstart then .error .invalidRangeOrder
            else .ok (tstart, tend))
  ∧ (∀ (s : String) (x y : ℤ), parseRangeString s = .ok (x, y) → x ≤ y) := by
  refine ⟨?_, ?_, ?_, ?_⟩
  · intro s h
    have hfind : s.toList.findIdx? (fun c => c = '-') = none := by
      rw [List.findIdx?_eq_none_iff]
      intro x hx
      simp only [decide_eq_false_iff_not]
      exact fun he => h (he ▸ hx)
    show parseRangeCore s.toList = _
    simp only [parseRangeCore, hfind]
    rw [if_pos (Or.inl (by norm_num))]
  · intro t
    have hfind : ('-' :: t).findIdx? (fun c => c = '-') = some 0 := by
      rw [List.findIdx?_cons]
      simp
    show parseRangeCore ('-' :: t) = _
    simp only [parseRangeCore, hfind]
    rw [if_pos (Or.inl (by norm_num))]
  · intro a b ha hane hbne
    have hfind := findIdx?_dash_append a b ha
    have halen : 0 < a.length := List.length_pos.mpr hane
    have hblen : 0 < b.length := List.length_pos.mpr hbne
    have hlen : (a ++ '-' :: b).length = a.length + b.length + 1 := by
      simp [List.length_append]
      omega
    have hcond : ¬ ((a.length : ℤ) ≤ 0 ∨
        (a.length : ℤ) = ((a ++ '-' :: b).length : ℤ) - 1) := by
      rw [hlen]
      push_cast
      omega
    have htake : (a ++ '-' :: b).take ((a.length : ℤ)).toNat = a := by
      rw [Int.toNat_natCast]
      exact List.take_left a ('-' :: b)
    have hdrop : (a ++ '-' :: b).drop (((a.length : ℤ)).toNat + 1) = b := by
      rw [Int.toNat_natCast]
      have : a ++ '-' :: b = (a ++ ['-']) ++ b := by simp
      rw [this, List.drop_left' (by simp)]
    show parseRangeCore (a ++ '-' :: b) = _
    simp only [parseRangeCore, hfind, hcond, if_false, htake, hdrop]
  · intro s x y h
    have h' : parseRangeCore s.toList = .ok (x, y) := h
    unfold parseRangeCore at h'
    rcases hf : s.toList.findIdx? (fun c => c = '-') with _ | i <;>
      rw [hf] at h' <;> dsimp only [] at h'
    · rw [if_pos (Or.inl (by norm_num))] at h'
      exact nomatch h'
    · by_cases hc : ((i : ℤ) ≤ 0 ∨ (i : ℤ) = (s.toList.length : ℤ) - 1)
      · rw [if_pos hc] at h'
        exact nomatch h'
      · rw [if_neg hc] at h'
        rcases h1 : parseTimeCore (s.toList.take ((i : ℤ)).toNat) with e | tstart <;>
          rw [h1] at h' <;> dsimp only [] at h'
        · exact nomatch h'
        · rcases h2 : parseTimeCore (s.toList.drop (((i : ℤ)).toNat + 1)) with e | tend <;>
            rw [h2] at h' <;> dsimp only [] at h'
          · exact nomatch h'
          · by_cases ho : tend < tstart
            · rw [if_pos ho] at h'
              exact nomatch h'
            · rw [if_neg ho] at h'
              rw [Except.ok.injEq, Prod.mk.injEq] at h'
              obtain ⟨rfl, rfl⟩ := h'
              omega

/-- C7 counterexample: on "-1-2" the code finds the FIRST dash (position
0) and fails with InvalidRangeFormat, although an interior dash exists at
position 2; the split rule worded by the claim would instead parse "-1"
with parseTime and fail with InvalidTimeFormat. -/
theorem parseRangeString_counterexample :
    parseRangeString ("-1-2") = .error .invalidRangeFormat
    ∧ parseRangeString_spec ("-1-2") = .error .invalidTimeFormat
    ∧ Err.invalidRangeFormat ≠ Err.invalidTimeFormat :=
  ⟨rfl, rfl, by decide⟩

/-- C7 witness: no dash, leading dash, a well-formed range, and the
start-at-most-end consequence, at concrete inputs. -/
theorem parseRangeString_spec_witness :
    parseRangeString ("5:00") = .error .invalidRangeFormat
    ∧ parseRangeString ("-1-2") = .error .invalidRangeFormat
    ∧ parseRangeString ("0:58-0:59") = .ok (58, 59)
    ∧ (58 : ℤ) ≤ 59 := by
  have h3 := parseRangeString_spec_thm.2.2.1 ("0:58".toList) ("0:59".toList)
    (by decide) (by decide) (by decide)
  have he : String.mk ("0:58".toList ++ '-' :: "0:59".toList) = "0:58-0:59" := by decide
  rw [he] at h3
  have h3' : parseRangeString ("0:58-0:59") = .ok (58, 59) := by
    rw [h3]
    rfl
  refine ⟨parseRangeString_spec_thm.1 ("5:00") (by decide), ?_, h3',
    parseRangeString_spec_thm.2.2.2 ("0:58-0:59") 58 59 h3'⟩
  have h2 := parseRangeString_spec_thm.2.1 ("1-2".toList)
  have he2 : String.mk ('-' :: "1-2".toList) = "-1-2" := by decide
  rw [he2] at h2
  exact h2

theorem floor_natCast_div (a b : ℕ) :
    ⌊(a : ℚ) / (b : ℚ)⌋ = ((a / b : ℕ) : ℤ) := by
  exact_mod_cast Rat.floor_natCast_div_natCast a b

theorem jsRem_natCast (a b : ℕ) (hb : 0 < b) :
    jsRem (a : ℚ) (b : ℚ) = ((a % b : ℕ) : ℚ) := by
  unfold jsRem ratTrunc
  have h0 : (0 : ℚ) ≤ (a : ℚ) / (b : ℚ) := by positivity
  rw [if_pos h0, floor_natCast_div, Int.cast_natCast]
  have h2 : ((b * (a / b) + a % b : ℕ) : ℚ) = (a : ℚ) := by
    exact_mod_cast congrArg (Nat.cast : ℕ → ℚ) (Nat.div_add_mod a b)
  push_cast at h2
  linarith

theorem intDecL_natCast (n : ℕ) : intDecL (n : ℤ) = natDecL n := by
  unfold intDecL
  rw [if_neg (by omega)]
  simp

theorem formatTimestamp_natCast (s : ℕ) :
    formatTimestamp (s : ℚ) =
      if 0 < s / 3600 then
        String.mk (padStart2 (natDecL (s / 3600)) ++
          ':' :: (padStart2 (natDecL (s % 3600 / 60)) ++
            ':' :: padStart2 (natDecL (s % 60))))
      else
        String.mk (padStart2 (natDecL (s % 3600 / 60)) ++
          ':' :: padStart2 (natDecL (s % 60))) := by
  have hh : ⌊(s : ℚ) / 3600⌋ = ((s / 3600 : ℕ) : ℤ) := by
    have := floor_natCast_div s 3600
    push_cast at this
    exact_mod_cast this
  have hm : ⌊jsRem (s : ℚ) 3600 / 60⌋ = ((s % 3600 / 60 : ℕ) : ℤ) := by
    have h1 := jsRem_natCast s 3600 (by norm_num)
    have h2 := floor_natCast_div (s % 3600) 60
    push_cast at h1 h2
    rw [h1]
    exact_mod_cast h2
  have hs : ⌊jsRem (s : ℚ) 60⌋ = ((s % 60 : ℕ) : ℤ) := by
    have h1 := jsRem_natCast s 60 (by norm_num)
    push_cast at h1
    rw [h1]
    exact_mod_cast Int.floor_natCast (s % 60)
  unfold formatTimestamp
  rw [hh, hm, hs]
  by_cases hpos : 0 < s / 3600
  · rw [if_pos (by exact_mod_cast hpos), if_pos hpos,
      intDecL_natCast, intDecL_natCast, intDecL_natCast]
  · rw [if_neg (by exact_mod_cast hpos), if_neg hpos,
      intDecL_natCast, intDecL_natCast]

/-- C9: for whole seconds below a day, formatTimestamp renders MM:SS when
the hour component is zero and HH:MM:SS otherwise, each component
zero-padded to width two, and parseTime inverts it. -/
theorem formatTimestamp_roundtrip (s : ℕ) (hs : s < 86400) :
    (formatTimestamp (s : ℚ) =
      if 0 < s / 3600 then
        String.mk (padStart2 (natDecL (s / 3600)) ++
          ':' :: (padStart2 (natDecL (s % 3600 / 60)) ++
            ':' :: padStart2 (natDecL (s % 60))))
      else
        String.mk (padStart2 (natDecL (s % 3600 / 60)) ++
          ':' :: padStart2 (natDecL (s % 60))))
    ∧ parseTimeString (formatTimestamp (s : ℚ)) = .ok (s : ℤ) := by
  refine ⟨formatTimestamp_natCast s, ?_⟩
  rw [formatTimestamp_natCast s]
  obtain ⟨hh1, hh2, hh3⟩ := natDecL_good (s / 3600)
  obtain ⟨hm1, hm2, hm3⟩ := natDecL_good (s % 3600 / 60)
  obtain ⟨hs1, hs2, hs3⟩ := natDecL_good (s % 60)
  obtain ⟨hph1, hph2, _⟩ := padStart2_good hh1 hh2
  obtain ⟨hpm1, hpm2, _⟩ := padStart2_good hm1 hm2
  obtain ⟨hps1, hps2, _⟩ := padStart2_good hs1 hs2
  by_cases hpos : 0 < s / 3600
  · rw [if_pos hpos]
    show parseTimeCore _ = _
    rw [show (String.mk (padStart2 (natDecL (s / 3600)) ++
        ':' :: (padStart2 (natDecL (s % 3600 / 60)) ++
          ':' :: padStart2 (natDecL (s % 60))))).toList =
      padStart2 (natDecL (s / 3600)) ++
        ':' :: (padStart2 (natDecL (s % 3600 / 60)) ++
          ':' :: padStart2 (natDecL (s % 60))) from rfl]
    rw [parseTimeCore_three _ _ _ (not_mem_of_digits hph2 rfl)
      (not_mem_of_digits hpm2 rfl) (not_mem_of_digits hps2 rfl)
      (jsTrimL_of_all_not_ws (not_ws_time_three hph2 hpm2 hps2))]
    simp only [jsParseIntL_pad_natDecL]
    rw [if_neg (by omega)]
    congr 1
    omega
  · rw [if_neg hpos]
    show parseTimeCore _ = _
    rw [show (String.mk (padStart2 (natDecL (s % 3600 / 60)) ++
        ':' :: padStart2 (natDecL (s % 60)))).toList =
      padStart2 (natDecL (s % 3600 / 60)) ++
        ':' :: padStart2 (natDecL (s % 60)) from rfl]
    rw [parseTimeCore_two _ _ (not_mem_of_digits hpm2 rfl)
      (not_mem_of_digits hps2 rfl)
      (jsTrimL_of_all_not_ws (not_ws_time_two hpm2 hps2))]
    simp only [jsParseIntL_pad_natDecL]
    rw [if_neg (by omega)]
    congr 1
    omega

/-- C9 witness: formatTimestamp at 3661 and 90 with their round trips. -/
theorem formatTimestamp_roundtrip_witness :
    formatTimestamp ((3661 : ℕ) : ℚ) = "01:01:01"
    ∧ parseTimeString ("01:01:01") = .ok ((3661 : ℕ) : ℤ)
    ∧ formatTimestamp ((90 : ℕ) : ℚ) = "01:30"
    ∧ parseTimeString ("01:30") = .ok ((90 : ℕ) : ℤ) := by
  have h1 := formatTimestamp_roundtrip 3661 (by norm_num)
  have h2 := formatTimestamp_roundtrip 90 (by norm_num)
  have e1 : formatTimestamp ((3661 : ℕ) : ℚ) = "01:01:01" := by
    rw [h1.1]
    decide
  have e2 : formatTimestamp ((90 : ℕ) : ℚ) = "01:30" := by
    rw [h2.1]
    decide
  refine ⟨e1, ?_, e2, ?_⟩
  · have := h1.2
    rw [e1] at this
    exact this
  · have := h2.2
    rw [e2] at this
    exact this

/-- C5 (amended): getCaptionTracks proceeds when the playability status
is absent, empty, or "OK" (the JS guard tests truthiness, so an empty
status string also proceeds); when the status is present, non-empty and
not OK it classifies: LOGIN_REQUIRED with a reason mentioning bot gives
RequestBlocked, else a reason mentioning inappropriate gives
AgeRestricted, else a reason mentioning unavailable gives
VideoUnavailable, else VideoUnplayable with the reason text; when it
proceeds, a missing or empty caption-track list fails with
CaptionsDisabled and otherwise the track list is returned unchanged. -/
theorem getCaptionTracks_spec :
    (∀ (data : InnertubePlayerResponse) (v : String),
      statusOf data = none ∨ statusOf data = some ("") ∨ statusOf data = some ("OK") →
      getCaptionTracks data v = extractTracks data)
  ∧ (∀ (data : InnertubePlayerResponse) (ts : List CaptionTrack),
      tracksField data = some ts → ts ≠ [] → extractTracks data = .ok ts)
  ∧ (∀ data : InnertubePlayerResponse,
      tracksField data = none ∨ tracksField data = some [] →
      extractTracks data = .error .captionsDisabled)
  ∧ (∀ (data : InnertubePlayerResponse) (v st : String),
      statusOf data = some st → st ≠ "" → st ≠ "OK" →
      (st = "LOGIN_REQUIRED" ∧ jsIncludes (reasonOf data st) ("bot") = true →
        getCaptionTracks data v = .error .requestBlocked)
      ∧ (¬ (st = "LOGIN_REQUIRED" ∧ jsIncludes (reasonOf data st) ("bot") = true) →
          jsIncludes (reasonOf data st) ("inappropriate") = true →
          getCaptionTracks data v = .error .ageRestricted)
      ∧ (¬ (st = "LOGIN_REQUIRED" ∧ jsIncludes (reasonOf data st) ("bot") = true) →
          jsIncludes (reasonOf data st) ("inappropriate") = false →
          jsIncludes (reasonOf data st) ("unavailable") = true →
          getCaptionTracks data v = .error .videoUnavailable)
      ∧ (¬ (st = "LOGIN_REQUIRED" ∧ jsIncludes (reasonOf data st) ("bot") = true) →
          jsIncludes (reasonOf data st) ("inappropriate") = false →
          jsIncludes (reasonOf data st) ("unavailable") = false →
          getCaptionTracks data v = .error (.videoUnplayable (reasonOf data st)))) := by
  refine ⟨?_, ?_, ?_, ?_⟩
  · intro data v h
    unfold getCaptionTracks
    rcases h with h | h | h <;> rw [h] <;> dsimp only []
    · rw [if_neg (by simp)]
    · rw [if_neg (by simp)]
  · intro data ts hts hne
    unfold extractTracks
    rw [hts]
    dsimp only []
    rw [if_pos (List.length_pos.mpr hne)]
  · intro data h
    unfold extractTracks
    rcases h with h | h <;> rw [h] <;> dsimp only []
    rw [if_neg (by simp)]
  · intro data v st hst hne hnok
    have hcond : st ≠ "" ∧ st ≠ "OK" := ⟨hne, hnok⟩
    refine ⟨?_, ?_, ?_, ?_⟩
    · intro h1
      unfold getCaptionTracks
      rw [hst]
      dsimp only []
      rw [if_pos hcond, if_pos h1]
    · intro h1 h2
      unfold getCaptionTracks
      rw [hst]
      dsimp only []
      rw [if_pos hcond, if_neg h1, if_pos h2]
    · intro h1 h2 h3
      unfold getCaptionTracks
      rw [hst]
      dsimp only []
      rw [if_pos hcond, if_neg h1, if_neg (by simp [h2]), if_pos h3]
    · intro h1 h2 h3
      unfold getCaptionTracks
      rw [hst]
      dsimp only []
      rw [if_pos hcond, if_neg h1, if_neg (by simp [h2]), if_neg (by simp [h3])]

/-- C5 counterexample: a present playability status equal to the empty
string is falsy in JS, so the code proceeds and returns the (non-empty)
track list, although the claim requires every present non-OK status to
fail (here with VideoUnplayable). -/
theorem getCaptionTracks_counterexample :
    getCaptionTracks
      ⟨some ⟨some (""), some ("r")⟩,
        some ⟨some ⟨some [⟨"u", "en", none, none⟩]⟩⟩⟩ ("v") =
      .ok [⟨"u", "en", none, none⟩]
    ∧ ("" : String) ≠ "OK" :=
  ⟨rfl, by decide⟩

/-- C5 witness: the four classification outcomes and the two proceed
outcomes at concrete player responses. -/
theorem getCaptionTracks_spec_witness :
    getCaptionTracks
      ⟨some ⟨some ("LOGIN_REQUIRED"), some ("robot check")⟩, none⟩ ("v") =
      .error .requestBlocked
    ∧ getCaptionTracks
      ⟨some ⟨some ("ERROR"), some ("Video unavailable")⟩, none⟩ ("v") =
      .error .videoUnavailable
    ∧ getCaptionTracks
      ⟨some ⟨some ("OK"), none⟩,
        some ⟨some ⟨some [⟨"u", "en", none, none⟩]⟩⟩⟩ ("v") =
      .ok [⟨"u", "en", none, none⟩]
    ∧ getCaptionTracks ⟨none, none⟩ ("v") = .error .captionsDisabled := by
  refine ⟨?_, ?_, ?_, ?_⟩
  · exact ((getCaptionTracks_spec.2.2.2
      ⟨some ⟨some ("LOGIN_REQUIRED"), some ("robot check")⟩, none⟩ ("v")
      ("LOGIN_REQUIRED") rfl (by decide) (by decide)).1 ⟨rfl, by decide⟩)
  · exact ((getCaptionTracks_spec.2.2.2
      ⟨some ⟨some ("ERROR"), some ("Video unavailable")⟩, none⟩ ("v")
      ("ERROR") rfl (by decide) (by decide)).2.2.1
      (by intro hc; exact absurd hc.1 (by decide)) (by decide) (by decide))
  · have h1 := getCaptionTracks_spec.1
      ⟨some ⟨some ("OK"), none⟩, some ⟨some ⟨some [⟨"u", "en", none, none⟩]⟩⟩⟩
      ("v") (Or.inr (Or.inr rfl))
    have h2 := getCaptionTracks_spec.2.1
      ⟨some ⟨some ("OK"), none⟩, some ⟨some ⟨some [⟨"u", "en", none, none⟩]⟩⟩⟩
      [⟨"u", "en", none, none⟩] rfl (by simp)
    rw [h1, h2]
  · have h1 := getCaptionTracks_spec.1 ⟨none, none⟩ ("v") (Or.inl rfl)
    have h2 := getCaptionTracks_spec.2.2.1 ⟨none, none⟩ (Or.inl rfl)
    rw [h1, h2]

/-! ### Helper lemmas for the timed-text scanner -/

theorem matchCI_self_append : ∀ (p r : List Char), matchCI p (p ++ r) = some r := by
  intro p
  induction p with
  | nil => intro r; rfl
  | cons c cs ih => intro r; simp [matchCI, ih]

theorem matchCI_length : ∀ (p l r : List Char), matchCI p l = some r →
    r.length + p.length = l.length := by
  intro p
  induction p with
  | nil =>
    intro l r h
    cases h
    simp
  | cons c cs ih =>
    intro l r h
    cases l with
    | nil => cases h
    | cons a as =>
      rw [matchCI] at h
      by_cases hc : c.toLower = a.toLower
      · rw [if_pos hc] at h
        have := ih as r h
        simp only [List.length_cons]
        omega
      · rw [if_neg hc] at h
        cases h

theorem run_split (x : Char) (A rest : List Char) (hA : x ∉ A) :
    ((A ++ x :: rest).takeWhile (fun c => c ≠ x)) = A ∧
    ((A ++ x :: rest).dropWhile (fun c => c ≠ x)) = x :: rest := by
  refine takeWhile_append_not A (x :: rest) ?_ ?_
  · intro c hc
    have : c ≠ x := fun he => hA (he ▸ hc)
    simpa using this
  · intro c hc
    cases hc
    simp

theorem matchCI_quote (X : List Char) : matchCI ['"'] ('"' :: X) = some X := by
  simp [matchCI]

theorem matchCI_gt (X : List Char) : matchCI ['>'] ('>' :: X) = some X := by
  simp [matchCI]

theorem tryMatchAt_render (s d t : String) (R : List Char)
    (hs1 : s.toList ≠ []) (hs2 : '"' ∉ s.toList) (hd2 : '"' ∉ d.toList)
    (ht2 : '<' ∉ t.toList) :
    tryMatchAt (renderElem (s, d, t) ++ R) =
      some (⟨s.toList, d.toList, t.toList⟩, R) := by
  have hshape : renderElem (s, d, t) ++ R =
      ("<text start=\"".toList) ++
        (s.toList ++ (("\" dur=\"".toList) ++
          (d.toList ++ (("\">".toList) ++
            (t.toList ++ (("</text>".toList) ++ R)))))) := by
    simp [renderElem, List.append_assoc]
  have c2 : (("\" dur=\"".toList : List Char)) ++
        (d.toList ++ (("\">".toList) ++ (t.toList ++ (("</text>".toList) ++ R)))) =
      '"' :: ((" dur=\"".toList) ++
        (d.toList ++ (("\">".toList) ++ (t.toList ++ (("</text>".toList) ++ R))))) := rfl
  have c3 : (("\">".toList : List Char)) ++ (t.toList ++ (("</text>".toList) ++ R)) =
      '"' :: ('>' :: (t.toList ++ (("</text>".toList) ++ R))) := rfl
  have c4 : (("</text>".toList : List Char)) ++ R = '<' :: (("/text>".toList) ++ R) := rfl
  have hne : s.toList.isEmpty = false := by
    rcases hx : s.toList with _ | ⟨c, cs⟩
    · exact absurd hx hs1
    · rfl
  rw [hshape]
  unfold tryMatchAt
  rw [matchCI_self_append]
  dsimp only []
  rw [c2, (run_split '"' s.toList _ hs2).1, (run_split '"' s.toList _ hs2).2]
  simp only [hne, Bool.false_eq_true, if_false]
  rw [← c2, matchCI_self_append]
  dsimp only []
  rw [c3, (run_split '"' d.toList _ hd2).1, (run_split '"' d.toList _ hd2).2]
  rw [matchCI_quote]
  dsimp only []
  rw [dropWhile_head_not ('>' :: (t.toList ++ (("</text>".toList) ++ R)))
    (by intro c hc; cases hc; simp)]
  rw [matchCI_gt]
  dsimp only []
  rw [c4, (run_split '<' t.toList _ ht2).1, (run_split '<' t.toList _ ht2).2]
  rw [← c4, matchCI_self_append]

theorem length_dropWhile_le' (p : Char → Bool) (l : List Char) :
    (l.dropWhile p).length ≤ l.length := by
  induction l with
  | nil => simp
  | cons a as ih =>
    rw [List.dropWhile_cons]
    by_cases h : p a = true
    · rw [if_pos h]
      simp only [List.length_cons]
      omega
    · rw [if_neg h]

theorem tryMatchAt_length (l : List Char) (cap : RawCap) (rest : List Char)
    (h : tryMatchAt l = some (cap, rest)) : rest.length < l.length := by
  unfold tryMatchAt at h
  split at h
  · exact nomatch h
  · rename_i r1 h1
    dsimp only [] at h
    split at h
    · exact nomatch h
    · split at h
      · exact nomatch h
      · rename_i r2 h2
        split at h
        · exact nomatch h
        · rename_i r3 h3
          split at h
          · exact nomatch h
          · rename_i r4 h4
            split at h
            · exact nomatch h
            · rename_i r5 h5
              cases h
              have l1 := matchCI_length _ _ _ h1
              have l2 := matchCI_length _ _ _ h2
              have l3 := matchCI_length _ _ _ h3
              have l4 := matchCI_length _ _ _ h4
              have l5 := matchCI_length _ _ _ h5
              have d1 := length_dropWhile_le' (fun c => c ≠ '"') r1
              have d2 := length_dropWhile_le' (fun c => c ≠ '"') r2
              have d3 := length_dropWhile_le' (fun c => c ≠ '>') r3
              have d4 := length_dropWhile_le' (fun c => c ≠ '<') r4
              simp only [List.length_cons, List.length_nil] at l1 l2 l3 l4 l5
              omega

theorem scanTextsAux_render :
    ∀ (elems : List (String × String × String)) (fuel : ℕ),
      (∀ e ∈ elems, e.1.toList ≠ [] ∧ '"' ∉ e.1.toList ∧ '"' ∉ e.2.1.toList ∧
        '<' ∉ e.2.2.toList) →
      (flatRender elems).length ≤ fuel →
      scanTextsAux fuel (flatRender elems) =
        elems.map (fun e => ⟨e.1.toList, e.2.1.toList, e.2.2.toList⟩) := by
  intro elems
  induction elems with
  | nil => intro fuel _ _; cases fuel <;> rfl
  | cons e es ih =>
    intro fuel hwf hfuel
    obtain ⟨he1, he2, he3, he4⟩ := hwf e (List.mem_cons_self e es)
    have hflat : flatRender (e :: es) = renderElem e ++ flatRender es := rfl
    have hrlen : 0 < (renderElem e).length := by
      simp [renderElem]
    have hlen : 0 < (renderElem e ++ flatRender es).length := by
      simp only [List.length_append]
      omega
    cases fuel with
    | zero =>
      rw [hflat] at hfuel
      omega
    | succ f =>
      obtain ⟨c, cs, hcc⟩ := List.exists_cons_of_ne_nil
        (List.ne_nil_of_length_pos hlen)
      have hmatch := tryMatchAt_render e.1 e.2.1 e.2.2 (flatRender es) he1 he2 he3 he4
      rw [hflat, hcc]
      rw [hcc] at hmatch
      show (match tryMatchAt (c :: cs) with
        | some (cap, rest) => cap :: scanTextsAux f rest
        | none => scanTextsAux f cs) = _
      rw [hmatch]
      dsimp only []
      have hfuel2 : (flatRender es).length ≤ f := by
        rw [hflat] at hfuel
        simp only [List.length_append] at hfuel
        omega
      rw [ih f (fun x hx => hwf x (List.mem_cons_of_mem e hx)) hfuel2]
      rfl

/-- C4 (amended): on a payload of well-formed timed-text elements,
parseTranscriptXml yields, in payload order without re-sorting, exactly
the snippets of the elements whose inner text is non-empty after
entity-unescaping, tag-stripping and trimming; an element whose dur
attribute is present but empty yields duration 0; an element lacking a
dur attribute entirely does not match the extraction pattern and yields
no snippet (see the counterexample). -/
theorem parseTranscriptXml_spec :
    (∀ elems : List (String × String × String),
      (∀ e ∈ elems, e.1.toList ≠ [] ∧ '"' ∉ e.1.toList ∧ '"' ∉ e.2.1.toList ∧
        '<' ∉ e.2.2.toList) →
      parseTranscriptXml (renderTimedText elems) = elems.filterMap normElem)
  ∧ (∀ s d t : String,
      normElem (s, d, t) =
        if (normalizeInner t.toList).isEmpty then none
        else some ⟨String.mk (normalizeInner t.toList), jsParseFloatL s.toList,
          jsParseFloatL (if d.toList.isEmpty then ['0'] else d.toList)⟩)
  ∧ (∀ s t : String, (normalizeInner t.toList).isEmpty = false →
      (normElem (s, "", t)).map (fun x => x.duration) = some (some 0)) := by
  refine ⟨?_, ?_, ?_⟩
  · intro elems hwf
    show (scanTexts (flatRender elems)).filterMap capToSnippet = _
    unfold scanTexts
    rw [scanTextsAux_render elems (flatRender elems).length hwf le_rfl,
      List.filterMap_map]
    have hfn : (capToSnippet ∘ fun e : String × String × String =>
        (⟨e.1.toList, e.2.1.toList, e.2.2.toList⟩ : RawCap)) = normElem :=
      funext (fun e => by simp only [Function.comp_apply, normElem])
    rw [hfn]
  · intro s d t
    simp only [normElem, capToSnippet]
  · intro s t h
    have hnil : ("" : String).toList = [] := rfl
    simp only [normElem, capToSnippet, h, Bool.false_eq_true, if_false, hnil,
      List.isEmpty_nil, if_true, Option.map_some']
    with_unfolding_all rfl

/-- C4 counterexample: an element with no dur attribute does not match
the extraction pattern at all and is dropped, while an element with an
empty dur attribute is kept with duration 0 — the claim treats the two
alike. -/
theorem parseTranscriptXml_counterexample :
    parseTranscriptXml ("<text start=\"1\">hi</text>") = []
    ∧ parseTranscriptXml ("<text start=\"1\" dur=\"\">hi</text>") =
      [⟨"hi", some 1, some 0⟩] := by
  constructor
  · rfl
  · with_unfolding_all rfl

/-- C4 witness: a three-element payload in which the whitespace-only
element is dropped, entity text is unescaped, order is preserved, and an
empty dur yields duration 0. -/
theorem parseTranscriptXml_spec_witness :
    parseTranscriptXml (renderTimedText
      [("58.2", "1.5", "a&amp;b"), ("60", "0", "   "), ("61.4", "", "c")]) =
      [⟨"a&b", some 58.2, some 1.5⟩, ⟨"c", some 61.4, some 0⟩] := by
  have h := parseTranscriptXml_spec.1
    [("58.2", "1.5", "a&amp;b"), ("60", "0", "   "), ("61.4", "", "c")]
    (by decide)
  rw [h]
  with_unfolding_all rfl

/-- C10: the ampersand entity is replaced first, so a doubly escaped
entity unescapes fully in one call, and doubly escaped angle brackets are
then removed by the tag-stripping pass as if they were real markup. -/
theorem unescapeHtml_order_spec :
    unescapeHtml ("&amp;lt;".toList) = ("<".toList)
    ∧ normalizeInner ("A &amp;lt;i&amp;gt;word&amp;lt;/i&amp;gt; B".toList) =
      ("A word B".toList)
    ∧ parseTranscriptXml
        ("<text start=\"1\" dur=\"2\">A &amp;lt;i&amp;gt;word&amp;lt;/i&amp;gt; B</text>") =
      [⟨"A word B", some 1, some 2⟩] :=
  ⟨rfl, rfl, by with_unfolding_all rfl⟩
